import Mathlib

set_option maxRecDepth 16384

/-!
Verification of the Herhackathon_eucerin retrieval-and-reasoning pipeline.

The definitions below are shallow embeddings of the Python sources:
  * `chunk_text`, document building and the embedding loop from
    `Backend/build_faiss_index.py`,
  * `retrieve` and `build_prompt` from `Backend/improvised_rag.py`
    (the `retrieve` loop is identical in `Backend/query_rag.py`),
  * the answer-section parsing and worker payload logic from
    `Dashboard/bubble_chart.py`.
Python strings are modelled as `List Char` (or `String`, which wraps a
`List Char`); machine integers from the vector index are modelled as `Int`
(ids fit in int64 and no arithmetic is performed on them).  Whitespace is
the ASCII whitespace set recognised by both Python's `str.strip` and the
regex class `\s` for the inputs considered here.
-/

/-- ASCII whitespace, as stripped by Python's `str.strip()` and matched by
the regex class `\s` (space, tab, newline, carriage return, vertical tab,
form feed). -/
def pyIsSpace (c : Char) : Bool :=
  c = ' ' || c = '\t' || c = '\n' || c = '\x0d' || c = '\x0b' || c = '\x0c'

/-- Python `s.strip()`: drop leading and trailing whitespace. -/
def pyStrip (s : List Char) : List Char :=
  ((s.dropWhile pyIsSpace).reverse.dropWhile pyIsSpace).reverse

/-- The window `text[start:start+size]` read by one iteration of the
`chunk_text` loop in `build_faiss_index.py` (Python slicing clips at the
end of the string). -/
def rawWindow (text : List Char) (size start : Nat) : List Char :=
  (text.drop start).take size

/-- The cursor update of the `chunk_text` loop: `start = end - overlap`
followed by `if start < 0: start = 0` (natural subtraction models the
clipping at zero). -/
def nextStart (size overlap start : Nat) : Nat :=
  start + size - overlap

/-- The `while start < L` loop of `chunk_text` (`build_faiss_index.py`
lines 40-49), written with explicit fuel.  Each iteration strips the
current window, keeps it when non-empty, and advances the cursor; the
trailing `if start >= L: break` of the source is the loop condition
re-checked.  `chunk_text` runs it with fuel `text.length`, which is shown
sufficient whenever `overlap < size` (`chunkTextAux_fuel_irrelevant`). -/
def chunkTextAux (text : List Char) (size overlap : Nat) :
    Nat → Nat → List (List Char)
  | 0, _ => []
  | fuel + 1, start =>
    if start < text.length then
      let chunk := pyStrip (rawWindow text size start)
      let rest := chunkTextAux text size overlap fuel (nextStart size overlap start)
      if chunk = [] then rest else chunk :: rest
    else []

/-- `chunk_text(text, size, overlap)` from `build_faiss_index.py`:
`if not text: return []`, then the scanning loop starting at cursor 0. -/
def chunk_text (text : List Char) (size overlap : Nat) : List (List Char) :=
  if text = [] then [] else chunkTextAux text size overlap text.length 0

/-- Two chunks overlap by exactly `O` characters when the last `O`
characters of the first equal the first `O` characters of the second. -/
def overlapsBy (O : Nat) (c₁ c₂ : List Char) : Prop :=
  c₁.drop (c₁.length - O) = c₂.take O

instance (O : Nat) (c₁ c₂ : List Char) : Decidable (overlapsBy O c₁ c₂) := by
  unfold overlapsBy; infer_instance

/-! ### Retriever (`retrieve` in improvised_rag.py / query_rag.py) -/

/-- The nested `meta` object of a chunk record
(`build_faiss_index.py` lines 83-87). -/
structure ChunkMeta where
  key_ingredients : List String
  problems_solved : List String
  category : String
deriving DecidableEq, Repr

/-- One record of the JSON-lines metadata sidecar as consumed by
`retrieve`; the hit-building code reads every field with `dict.get`, so
each field may be absent (`none`). -/
structure MetaRecord where
  product_id : Option String
  product_name : Option String
  text : Option String
  source : Option String
  meta : Option ChunkMeta
deriving DecidableEq, Repr

/-- A retrieval hit: the dictionary appended by the `retrieve` loop,
joining an index search result `(id, score)` with its metadata record.
The score type is abstract: `retrieve` only passes scores through. -/
structure Hit (σ : Type) where
  id : Int
  score : σ
  product_id : Option String
  product_name : Option String
  text : Option String
  source : Option String
  meta : Option ChunkMeta
deriving DecidableEq, Repr

/-- The hit dictionary built for one surviving `(idx, score)` pair
(improvised_rag.py lines 64-72). -/
def joinHit {σ : Type} (idx : Int) (score : σ) (m : MetaRecord) : Hit σ :=
  { id := idx, score := score, product_id := m.product_id,
    product_name := m.product_name, text := m.text, source := m.source,
    meta := m.meta }

/-- The metadata-join loop of `retrieve` (improvised_rag.py lines 58-73,
identical in query_rag.py lines 44-59): walk the index's `(id, score)`
result pairs in order, `continue` on `idx == -1`, skip ids with no
metadata record, and append the joined hit.  The embedding/search steps
that produce `results` are external collaborators; the metadata mapping
is the dictionary built by `load_metadata`. -/
def retrieveHits {σ : Type} (results : List (Int × σ))
    (metadata : List (Int × MetaRecord)) : List (Hit σ) :=
  match results with
  | [] => []
  | (idx, score) :: rest =>
    if idx = -1 then retrieveHits rest metadata
    else
      match metadata.lookup idx with
      | none => retrieveHits rest metadata
      | some m => joinHit idx score m :: retrieveHits rest metadata

/-- A sample metadata record for the concrete scenario of claim C1. -/
def sampleRecord (n : String) : MetaRecord :=
  { product_id := some n, product_name := some n, text := some n,
    source := some n, meta := none }

/-! ### Prompt Builder (`build_prompt` in improvised_rag.py) -/

/-- Python f-string rendering of a value read with `dict.get`: an absent
value (`None`) renders as the text `None`. -/
def pyFormat : Option String → String
  | none => "None"
  | some s => s

/-- Python's `sep.join(parts)`. -/
def pyJoin (sep : List Char) : List (List Char) → List Char
  | [] => []
  | [x] => x
  | x :: y :: rest => x ++ sep ++ pyJoin sep (y :: rest)

/-- One context entry of `build_prompt` (improvised_rag.py lines 81-86):
`f"Source: {src}\nProduct: {h.get('product_name')}\nExcerpt: {txt}\n"`. -/
def ctxEntry {σ : Type} (h : Hit σ) : List Char :=
  "Source: ".toList ++ (pyFormat h.source).toList ++
    "\nProduct: ".toList ++ (pyFormat h.product_name).toList ++
    "\nExcerpt: ".toList ++ (pyFormat h.text).toList ++ "\n".toList

/-- `context_block = "\n\n---\n\n".join(ctxs)` (improvised_rag.py line 88). -/
def contextBlock {σ : Type} (hits : List (Hit σ)) : List Char :=
  pyJoin "\n\n---\n\n".toList (hits.map ctxEntry)

/-- `improvement_block = f"\nAdditional Insights:\n{insights}\n" if insights
else ""` (improvised_rag.py line 90).  Python truthiness: both `None` and
the empty string are falsy, so both yield the empty block. -/
def improvementBlock : Option String → List Char
  | none => []
  | some s =>
    if s = "" then []
    else "\nAdditional Insights:\n".toList ++ s.toList ++ "\n".toList

/-- The fixed text of the prompt template before the context block
(improvised_rag.py lines 92-113; the f-string begins with a newline and
three blank lines precede `Context:`). -/
def promptHeader : List Char :=
  ("\nYou are a skincare marketing specialist RAG system specializing in Eucerin products.\n\nFIRST TASK — Product Retrieval:\nUse ONLY the context to answer the user's question.\nIf the answer cannot be found in the context, say \"I don't know\".\nList matching products with citations.\n\nSECOND TASK — Product Improvement Reasoning:\nUsing the extracted product ingredients AND the external insights provided,\ndetermine:\n1. What these products do well.\n2. What could be improved.\n3. How the product could be optimized.\n\nTHIRD TASK — Marketing Suggestions:\nBased on the above reasoning, suggest marketing angles or product improvements\nthat would better address the user's concern.\n\n\n\nContext:\n").toList

/-- The fixed text of the prompt template after the user question
(improvised_rag.py lines 121-134). -/
def promptTail : List Char :=
  ("\n\nReturn the answer in this format:\n\n### Answer\n<normal RAG answer>\n\n### Product Improvement Suggestions\n<improvement suggestions based on insights + product data>\n\n### Marketing Suggestions\n<marketing suggestions based on insights + product data>\n\n### Sources\n<list URLs or metadata sources>\n").toList

/-- `build_prompt(question, hits, insights)` from improvised_rag.py
(lines 79-135): the fixed template with the context block, the optional
insights block and the question interpolated. -/
def build_prompt {σ : Type} (question : String) (hits : List (Hit σ))
    (insights : Option String) : List Char :=
  promptHeader ++ contextBlock hits ++ "\n\n".toList ++
    improvementBlock insights ++ "\n\nUser Question:\n".toList ++
    question.toList ++ promptTail

/-- Number of occurrences of `p` in `s`: the number of positions of `s`
at which `p` occurs as a contiguous substring. -/
def countOcc (p : List Char) : List Char → Nat
  | [] => 0
  | c :: rest => (if p <+: (c :: rest) then 1 else 0) + countOcc p rest

/-- `noPartialSuffixB p a` checks that no proper non-empty prefix of the
pattern `p` is a suffix of `a`; then no occurrence of `p` can start
inside `a` and continue past its end. -/
def noPartialSuffixB (p a : List Char) : Bool :=
  (List.range p.length).all fun k => k = 0 || ! decide ((p.take k) <:+ a)


/-! ### Indexer (`main` in build_faiss_index.py) -/

/-- `CHUNK_SIZE` (build_faiss_index.py line 20). -/
def CHUNK_SIZE : Nat := 2000

/-- `CHUNK_OVERLAP` (build_faiss_index.py line 21). -/
def CHUNK_OVERLAP : Nat := 400

/-- `BATCH_SIZE` (build_faiss_index.py line 22). -/
def BATCH_SIZE : Nat := 32

/-- One input product line of the JSON-lines file, with the fields `main`
reads via `product.get` (absent keys give `none`). -/
structure Product where
  id : Option String
  product_name : Option String
  source : Option String
  text : Option String
  short_description : Option String
  key_ingredients : Option (List String)
  problems_solved : Option (List String)
  category : Option String
deriving DecidableEq, Repr

/-- Python `a or b` on a possibly-absent string: `None` and the empty
string are falsy. -/
def pyOr : Option String → String → String
  | some s, d => if s = "" then d else s
  | none, d => d

/-- A document chunk as assembled by the indexer loop
(build_faiss_index.py lines 76-88). -/
structure Doc where
  id : Nat
  product_id : String
  product_name : String
  text : List Char
  source : String
  meta : ChunkMeta
deriving DecidableEq, Repr

/-- `text if text else short` (build_faiss_index.py line 73): chunk the
`text` field when truthy, else `short_description`. -/
def docTextOf (p : Product) : List Char :=
  (if p.text.getD "" = "" then p.short_description.getD "" else p.text.getD "").toList

/-- The documents created for one product: one per chunk, ids assigned
consecutively from `nid` (`next_id` on entry to the product), with
`product_id = product.get("id") or product.get("product_name") or
f"prod_{next_id}"` evaluated once per product. -/
def docsForProduct (p : Product) (nid : Nat) : List Doc :=
  (chunk_text (docTextOf p) CHUNK_SIZE CHUNK_OVERLAP).enum.map fun jc =>
    { id := nid + jc.1,
      product_id := pyOr p.id (pyOr p.product_name ("prod_" ++ toString nid)),
      product_name := p.product_name.getD "",
      text := jc.2,
      source := p.source.getD "",
      meta := { key_ingredients := p.key_ingredients.getD [],
                problems_solved := p.problems_solved.getD [],
                category := p.category.getD "" } }

/-- The document-building loop of `main` (build_faiss_index.py lines
62-89): `next_id` starts at 1 and increases by one per chunk; a product
with no chunks is skipped and leaves `next_id` unchanged. -/
def buildDocs : List Product → Nat → List Doc
  | [], _ => []
  | p :: ps, nid =>
    docsForProduct p nid ++
      buildDocs ps (nid + (chunk_text (docTextOf p) CHUNK_SIZE CHUNK_OVERLAP).length)

/-- All documents of one indexing run (`next_id = 1` at start). -/
def allDocs (ps : List Product) : List Doc := buildDocs ps 1

/-- The id array handed to the vector index:
`ids = np.array([d["id"] for d in docs])` (build_faiss_index.py line 121). -/
def indexIds (docs : List Doc) : List Nat := docs.map Doc.id

/-- The keys of the metadata sidecar: the write loop emits exactly one
JSON line per document, keyed by `d["id"]` (build_faiss_index.py lines
129-139). -/
def metaKeys (docs : List Doc) : List Nat := docs.map Doc.id

/-- The mutable state of the embedding loop (build_faiss_index.py lines
98-113): the batch offset `i` and the `all_embeddings` slot array. -/
structure EmbState (α : Type) where
  i : Nat
  emb : List (Option α)
deriving Repr

/-- `for j, v in enumerate(emb): all_embeddings[i + j] = v`: write the
batch's vectors into consecutive slots starting at `i`. -/
def writeFrom {α : Type} : List (Option α) → Nat → List α → List (Option α)
  | l, _, [] => l
  | l, i, v :: vs => writeFrom (l.set i (some v)) (i + 1) vs

/-- One iteration of the `while i < len(docs)` embedding loop.  `ok`
tells whether the batch embedding call succeeded; embeddings themselves
are deterministic (`embedFn` per text).  On failure the source sleeps
5 seconds and `continue`s — the offset and the slot array are unchanged
(the sleep has no observable effect on the state).  On success the batch
`docs[i:i+BATCH_SIZE]` is embedded, written at offsets `i+j`, and only
then does `i` advance by `BATCH_SIZE`. -/
def embedLoopStep {α : Type} (embedFn : String → α) (docs : List String)
    (st : EmbState α) (ok : Bool) : EmbState α :=
  if st.i < docs.length then
    if ok then
      { i := st.i + BATCH_SIZE,
        emb := writeFrom st.emb st.i
          (((docs.drop st.i).take BATCH_SIZE).map embedFn) }
    else st
  else st

/-- The embedding loop run against a sequence of batch-call outcomes,
starting from offset 0 with `all_embeddings = [None] * len(docs)`. -/
def runEmbedLoop {α : Type} (embedFn : String → α) (docs : List String)
    (outcomes : List Bool) : EmbState α :=
  outcomes.foldl (embedLoopStep embedFn docs) ⟨0, List.replicate docs.length none⟩


/-! ### Answer Parser (`AnalysisWorker.run`, Dashboard/bubble_chart.py
lines 84-108).

The worker applies, to the raw chat output:
  * the primary regex
    `###\\s*Answer\\s*(.*?)###\\s*Product Improvement Suggestions\\s*(.*?)###\\s*Sources\\s*(.*)`
    with `re.S | re.I`;
  * on failure, `re.split` on
    `###\\s*Product Improvement Suggestions|###\\s*Sources` (`re.I`) with
    positional assignment of the parts;
  * independently, `re.search` of
    `#{2,}\\s*Marketing\\s*(.*?)(?:\\n#{2,}|\\Z)` (`re.S | re.I`).

The matchers below implement exactly these patterns.  Greedy `\\s*` is
implemented as the maximal whitespace run: every `\\s*` here is followed
by a literal starting with a non-whitespace character (or by a group
that can absorb whitespace), so no shorter run can extend a failing
match — the regex engine's backtracking always settles on the maximal
run.  Lazy groups are implemented as the shortest prefix whose
continuation succeeds, positions tried left to right — the engine's
preference order.  `#` is matched by plain equality (case has no effect
on it); case-insensitive words are compared via `Char.toLower`. -/

/-- Match one literal character, returning the rest of the text. -/
def expectChar (c : Char) : List Char → Option (List Char)
  | [] => none
  | x :: r => if x = c then some r else none

/-- Greedy `\\s*`: consume the maximal whitespace run. -/
def dropWsRun : List Char → List Char
  | [] => []
  | c :: rest => if pyIsSpace c then dropWsRun rest else c :: rest

/-- Greedy tail of a `#{2,}` run (after its first two characters). -/
def dropHashRun : List Char → List Char
  | [] => []
  | c :: rest => if c = '#' then dropHashRun rest else c :: rest

/-- Case-insensitive literal match (`re.I` over ASCII): the pattern is
written lowercase and each text character is lowered before comparing. -/
def ciPrefixMatch : List Char → List Char → Option (List Char)
  | [], s => some s
  | _ :: _, [] => none
  | p :: ps, c :: cs => if c.toLower = p then ciPrefixMatch ps cs else none

/-- `###` then `\\s*` then a case-insensitive word — one heading, with no
trailing whitespace consumed. -/
def headingCore (word : List Char) (s : List Char) : Option (List Char) :=
  (expectChar '#' s >>= expectChar '#' >>= expectChar '#') >>=
    fun s3 => ciPrefixMatch word (dropWsRun s3)

/-- A heading followed by its trailing `\\s*`. -/
def headingWs (word : List Char) (s : List Char) : Option (List Char) :=
  (headingCore word s).map dropWsRun

/-- Lazy `(.*?)`: the shortest prefix after which `p` succeeds, returning
the group value (the prefix) and `p`'s result; `acc` holds the reversed
prefix scanned so far. -/
def findSplitPoint {β : Type} (p : List Char → Option β) :
    List Char → List Char → Option (List Char × β)
  | [], acc =>
    match p [] with
    | some x => some (acc.reverse, x)
    | none => none
  | c :: rest, acc =>
    match p (c :: rest) with
    | some x => some (acc.reverse, x)
    | none => findSplitPoint p rest (c :: acc)

/-- `re.search` position scan: try the matcher at every start position,
left to right, including the end-of-string position. -/
def searchFrom {β : Type} (f : List Char → Option β) : List Char → Option β
  | [] => f []
  | c :: rest =>
    match f (c :: rest) with
    | some x => some x
    | none => searchFrom f rest

/-- `Answer` (lowercased), for `re.I` matching. -/
def answerW : List Char := "answer".toList

/-- `Product Improvement Suggestions` (lowercased). -/
def pisW : List Char := "product improvement suggestions".toList

/-- `Sources` (lowercased). -/
def sourcesW : List Char := "sources".toList

/-- `Marketing` (lowercased). -/
def marketingW : List Char := "marketing".toList

/-- `Sources\\s*(.*)` after group 2: on a matched `Sources` heading the
final greedy `(.*)` (with `re.S`) takes everything to the end, so the
remainder after the heading and its `\\s*` is group 3. -/
def sourcesTail (u : List Char) : Option (List Char) :=
  headingWs sourcesW u

/-- The continuation tried at each lazy position of group 1: a
`Product Improvement Suggestions` heading whose remainder contains a
`Sources` heading (found by the inner lazy scan for group 2).  When no
`Sources` heading follows, this continuation fails and the enclosing
scan advances — the regex engine's backtracking order. -/
def pisCont (t : List Char) : Option (List Char × List Char) :=
  match headingWs pisW t with
  | none => none
  | some r => findSplitPoint sourcesTail r []

/-- The primary regex matched at the start of `s`, yielding the three
groups. -/
def primaryAt (s : List Char) : Option (List Char × List Char × List Char) :=
  match headingWs answerW s with
  | none => none
  | some r1 =>
    match findSplitPoint pisCont r1 [] with
    | none => none
    | some (g1, g2, g3) => some (g1, g2, g3)

/-- `re.search` of the primary regex. -/
def primarySearch (s : List Char) : Option (List Char × List Char × List Char) :=
  searchFrom primaryAt s

/-- One match of the split pattern
`###\\s*Product Improvement Suggestions|###\\s*Sources` at the start of
`s` (alternatives tried in order), returning the text after the match. -/
def matchSplitPat (s : List Char) : Option (List Char) :=
  match headingCore pisW s with
  | some r => some r
  | none => headingCore sourcesW s

/-- `re.split`: scan left to right, cutting at each non-overlapping
leftmost match.  The pattern cannot match the empty string (it needs
`###`), so every step consumes at least one character and fuel
`s.length + 1` is never exhausted. -/
def splitGo : Nat → List Char → List Char → List (List Char)
  | 0, s, acc => [acc.reverse ++ s]
  | fuel + 1, s, acc =>
    match s with
    | [] => [acc.reverse]
    | c :: rest =>
      match matchSplitPat (c :: rest) with
      | some rem => acc.reverse :: splitGo fuel rem []
      | none => splitGo fuel rest (c :: acc)

/-- `re.split(r"###\\s*Product Improvement Suggestions|###\\s*Sources", s, re.I)`. -/
def splitPat (s : List Char) : List (List Char) :=
  splitGo (s.length + 1) s []

/-- Terminator `(?:\\n#{2,}|\\Z)` of the marketing regex: end of text, or
a newline followed by at least two `#`. -/
def mktTerm : List Char → Option Unit
  | [] => some ()
  | u => ((expectChar '\x0a' u >>= expectChar '#') >>= expectChar '#').map fun _ => ()

/-- The marketing regex `#{2,}\\s*Marketing\\s*(.*?)(?:\\n#{2,}|\\Z)` matched
at the start of `s`, returning the group.  `#{2,}` takes the whole `#`
run: stopping earlier leaves a `#`, which matches neither `\\s*`-then-`m`
nor `m`, so no shorter choice can succeed. -/
def marketingAt (s : List Char) : Option (List Char) :=
  match expectChar '#' s >>= expectChar '#' with
  | none => none
  | some r =>
    match ciPrefixMatch marketingW (dropWsRun (dropHashRun r)) with
    | none => none
    | some r2 =>
      match findSplitPoint mktTerm (dropWsRun r2) [] with
      | none => none
      | some (g, _) => some g

/-- `re.search` of the marketing regex. -/
def marketingSearch (s : List Char) : Option (List Char) :=
  searchFrom marketingAt s

/-- The four answer sections assembled by the parse block; every field is
always present, defaulting to the empty string. -/
structure RagSections where
  answer : List Char
  suggestions : List Char
  sources : List Char
  marketing : List Char
deriving DecidableEq, Repr

/-- The parse block of `AnalysisWorker.run` (bubble_chart.py lines
84-108): primary regex first; on failure `re.split` with positional
assignment (`parts[0]` stripped as answer — or the raw text if `parts`
were empty — `parts[1]`/`parts[2]` stripped when present, else empty);
marketing extracted independently, empty when its heading is absent. -/
def parseRagSections (ragText : List Char) : RagSections :=
  let marketing :=
    match marketingSearch ragText with
    | some g => pyStrip g
    | none => []
  match primarySearch ragText with
  | some (g1, g2, g3) =>
    { answer := pyStrip g1, suggestions := pyStrip g2,
      sources := pyStrip g3, marketing := marketing }
  | none =>
    let parts := splitPat ragText
    { answer := match parts with | [] => ragText | p0 :: _ => pyStrip p0,
      suggestions := match parts.drop 1 with | p1 :: _ => pyStrip p1 | [] => [],
      sources := match parts.drop 2 with | p2 :: _ => pyStrip p2 | [] => [],
      marketing := marketing }

/-- The `rag_sections` dictionary literal built by the parse block
(bubble_chart.py lines 103-108): four keys, always present. -/
def ragSectionsDict (ragText : List Char) : List (String × List Char) :=
  [("answer", (parseRagSections ragText).answer),
   ("suggestions", (parseRagSections ragText).suggestions),
   ("sources", (parseRagSections ragText).sources),
   ("marketing", (parseRagSections ragText).marketing)]



/-- The exact text of the `Product Improvement Suggestions` heading as it
appears in the prompt template (and as matched, case-insensitively, by
the worker's patterns). -/
def pisHeading : List Char := "### Product Improvement Suggestions".toList

/-! ### Dashboard workers (Dashboard/bubble_chart.py).

`AnalysisWorker.run` (lines 41-121) and `ForecastWorker.run` (lines
138-191) are modelled as functions from the outcomes of their external
calls (module availability, `analyse_skin_concern`, `retrieve`,
`call_chat_model`, `run_forecasting_pipeline` — each may raise, modelled
by `Except`) to the list of payloads emitted via `finished.emit`.  The
glue between the calls (dict updates, `build_prompt`, the regex parse)
is pure and cannot raise; the numeric chart/insight rendering of the
forecast worker is abstracted into the pipeline outcome's value. -/

/-- The dictionary returned by `analyse_data.analyse_skin_concern`, with
the keys `AnalysisWorker.run` reads via `result.get`. -/
structure AnalysisResult where
  graph_data : Option (List String)
  analysis : Option String
deriving Repr

/-- The `rag_sections` value stored in an analysis payload.  The
exception and module-unavailable paths build it without a `marketing`
key (`none` here); the parse path always includes one. -/
structure RagDict where
  answer : List Char
  suggestions : List Char
  sources : List Char
  marketing : Option (List Char)
deriving DecidableEq, Repr

/-- The payload dictionary emitted by `AnalysisWorker.run`: keys absent
from the dict are `none`. -/
structure AnalysisPayload where
  error : Option String := none
  graph_text : Option String := none
  analysis_text : Option String := none
  rag_sections : Option RagDict := none
deriving Repr

/-- The outcomes of the external calls made by one `AnalysisWorker.run`. -/
structure AnalysisOutcome where
  analyseAvailable : Bool
  analyseResult : Except String AnalysisResult
  ragAvailable : Bool
  retrieveResult : Except String (List (Hit Unit))
  chatResult : Except String String
deriving Repr

/-- `AnalysisWorker.run` (bubble_chart.py lines 41-121): the list of
payloads emitted, in order, for the given call outcomes.  Each return
path emits exactly once; a `retrieve` or chat failure is converted into
an error message inside `rag_sections.answer` (not an `error` key). -/
def analysisWorkerRun (o : AnalysisOutcome) : List AnalysisPayload :=
  if o.analyseAvailable then
    match o.analyseResult with
    | .error e => [{ error := some ("Error in analyse_data: " ++ e) }]
    | .ok result =>
      let graph_lines := result.graph_data.getD []
      let graph_text :=
        if graph_lines = [] then "No related graph data found."
        else String.intercalate "\x0a" graph_lines
      let analysis_text := result.analysis.getD ""
      if o.ragAvailable then
        match o.retrieveResult with
        | .error e =>
          let d : RagDict := { answer := ("Error running RAG: " ++ e).toList,
                               suggestions := [], sources := [], marketing := none }
          [{ graph_text := some graph_text, analysis_text := some analysis_text,
             rag_sections := some d }]
        | .ok _ =>
          match o.chatResult with
          | .error e =>
            let d : RagDict := { answer := ("Error running RAG: " ++ e).toList,
                                 suggestions := [], sources := [], marketing := none }
            [{ graph_text := some graph_text, analysis_text := some analysis_text,
               rag_sections := some d }]
          | .ok ragText =>
            let secs := parseRagSections ragText.toList
            let d : RagDict := { answer := secs.answer,
                                 suggestions := secs.suggestions,
                                 sources := secs.sources,
                                 marketing := some secs.marketing }
            [{ graph_text := some graph_text, analysis_text := some analysis_text,
               rag_sections := some d }]
      else
        let d : RagDict := { answer := "RAG module unavailable.".toList,
                             suggestions := [], sources := [], marketing := none }
        [{ graph_text := some graph_text, analysis_text := some analysis_text,
           rag_sections := some d }]
  else [{ error := some "analyse_data module unavailable." }]

/-- The payload dictionary emitted by `ForecastWorker.run`; the
matplotlib figure and the forecast-data dict are modelled by presence
flags, the insight string by its rendered value. -/
structure ForecastPayload where
  error : Option String := none
  hasFigure : Bool := false
  insight : Option String := none
  hasForecastData : Bool := false
deriving Repr

/-- The outcomes of the external calls made by one `ForecastWorker.run`:
module availability and the try-block around
`run_forecasting_pipeline` + chart + insight rendering. -/
structure ForecastOutcome where
  forecastAvailable : Bool
  pipelineResult : Except String String
deriving Repr

/-- `ForecastWorker.run` (bubble_chart.py lines 138-191): the list of
payloads emitted for the given outcomes. -/
def forecastWorkerRun (o : ForecastOutcome) : List ForecastPayload :=
  if o.forecastAvailable then
    match o.pipelineResult with
    | .error e => [{ error := some ("Error running forecast: " ++ e) }]
    | .ok insight =>
      [{ hasFigure := true, insight := some insight, hasForecastData := true }]
  else [{ error := some "forecast module unavailable." }]

/-- An analysis payload carries an error or a RAG result, never both and
never neither. -/
def analysisPayloadOk (p : AnalysisPayload) : Bool :=
  p.error.isSome != p.rag_sections.isSome

/-- A forecast payload carries an error or the figure/insight/data
triple, never both and never neither. -/
def forecastPayloadOk (p : ForecastPayload) : Bool :=
  p.error.isSome != (p.hasFigure && p.insight.isSome && p.hasForecastData)

/-! ### Theorems: the Chunker (claims C2, C6, C7) -/

theorem pyStrip_eq_rdrop (s : List Char) :
    pyStrip s = List.rdropWhile pyIsSpace (s.dropWhile pyIsSpace) := rfl

theorem pyStrip_length_le (s : List Char) : (pyStrip s).length ≤ s.length := by
  have h1 := (List.dropWhile_suffix (l := s) pyIsSpace).length_le
  have h2 := (List.rdropWhile_prefix pyIsSpace (s.dropWhile pyIsSpace)).length_le
  rw [pyStrip_eq_rdrop]
  omega

theorem pyStrip_idem (s : List Char) : pyStrip (pyStrip s) = pyStrip s := by
  have hxdrop : (s.dropWhile pyIsSpace).dropWhile pyIsSpace = s.dropWhile pyIsSpace :=
    List.dropWhile_idempotent pyIsSpace s
  have hydrop : (pyStrip s).dropWhile pyIsSpace = pyStrip s := by
    cases hys : pyStrip s with
    | nil => simp
    | cons c rest =>
      have hpre : (c :: rest) <+: s.dropWhile pyIsSpace := by
        rw [← hys, pyStrip_eq_rdrop]
        exact List.rdropWhile_prefix _ _
      rcases hpre with ⟨t, ht⟩
      have hc : ¬ pyIsSpace c = true := by
        intro hpc
        have hdw := hxdrop
        rw [← ht, List.cons_append, List.dropWhile_cons, if_pos hpc] at hdw
        have hlen := congrArg List.length hdw
        have hle := (List.dropWhile_suffix (l := rest ++ t) pyIsSpace).length_le
        rw [List.length_cons] at hlen
        omega
      rw [List.dropWhile_cons, if_neg hc]
  rw [pyStrip_eq_rdrop (pyStrip s), hydrop, pyStrip_eq_rdrop s,
    List.rdropWhile_idempotent]

theorem rawWindow_length_le (text : List Char) (size start : Nat) :
    (rawWindow text size start).length ≤ size := by
  unfold rawWindow
  rw [List.length_take]
  omega

theorem chunkTextAux_stop (text : List Char) (size overlap fuel start : Nat)
    (h : text.length ≤ start) : chunkTextAux text size overlap fuel start = [] := by
  cases fuel with
  | zero => rfl
  | succ f => simp [chunkTextAux, Nat.not_lt.mpr h]

theorem chunkTextAux_fuel_irrelevant (text : List Char) (size overlap : Nat)
    (hov : overlap < size) :
    ∀ f₁ f₂ start, text.length - start ≤ f₁ → text.length - start ≤ f₂ →
      chunkTextAux text size overlap f₁ start = chunkTextAux text size overlap f₂ start := by
  intro f₁
  induction f₁ with
  | zero =>
    intro f₂ start h1 h2
    have hstop : text.length ≤ start := by omega
    rw [chunkTextAux_stop _ _ _ _ _ hstop, chunkTextAux_stop _ _ _ _ _ hstop]
  | succ f ih =>
    intro f₂ start h1 h2
    by_cases hs : start < text.length
    · cases f₂ with
      | zero => omega
      | succ f₂' =>
        simp only [chunkTextAux, if_pos hs]
        have hrec := ih f₂' (nextStart size overlap start)
          (by unfold nextStart; omega) (by unfold nextStart; omega)
        rw [hrec]
    · rw [chunkTextAux_stop _ _ _ _ _ (Nat.not_lt.mp hs),
        chunkTextAux_stop _ _ _ _ _ (Nat.not_lt.mp hs)]

theorem chunkTextAux_mem (text : List Char) (size overlap : Nat) :
    ∀ fuel start c, c ∈ chunkTextAux text size overlap fuel start →
      c ≠ [] ∧ c.length ≤ size ∧ pyStrip c = c := by
  intro fuel
  induction fuel with
  | zero => intro start c hc; simp [chunkTextAux] at hc
  | succ f ih =>
    intro start c hc
    simp only [chunkTextAux] at hc
    split at hc
    · split at hc
      · exact ih _ _ hc
      · rcases List.mem_cons.mp hc with h | h
        · subst h
          refine ⟨by assumption, ?_, pyStrip_idem _⟩
          exact le_trans (pyStrip_length_le _) (rawWindow_length_le text size start)
        · exact ih _ _ h
    · simp at hc

/-- Claim C7: for `0 < O < C` the `chunk_text` loop terminates: giving the
fuel-indexed loop any fuel of at least `text.length` steps yields the same
result as `chunk_text`, because the cursor advances by `C − O > 0` on every
step, so the loop always exits within `text.length` iterations. -/
theorem chunk_text_terminates (text : List Char) (size overlap fuel : Nat)
    (h0 : 0 < overlap) (hov : overlap < size) (hf : text.length ≤ fuel) :
    chunkTextAux text size overlap fuel 0 = chunk_text text size overlap := by
  unfold chunk_text
  by_cases ht : text = []
  · subst ht
    rw [if_pos rfl]
    exact chunkTextAux_stop _ _ _ _ _ (by simp)
  · rw [if_neg ht]
    exact chunkTextAux_fuel_irrelevant text size overlap hov fuel text.length 0
      (by omega) (by omega)

theorem chunk_text_terminates_witness :
    0 < 1 ∧ 1 < 3 ∧ "ab c".toList.length ≤ 9 ∧
      chunkTextAux "ab c".toList 3 1 9 0 = chunk_text "ab c".toList 3 1 :=
  ⟨by decide, by decide, by decide,
    chunk_text_terminates "ab c".toList 3 1 9 (by decide) (by decide) (by decide)⟩

/-- Claim C6: for `0 < O < C`, `chunk_text` on empty text returns the empty
sequence, and every returned chunk is non-empty, has length at most `C`,
and is trimmed of leading and trailing whitespace (stripping it again
changes nothing). -/
theorem chunk_text_wellformed (text : List Char) (size overlap : Nat)
    (h0 : 0 < overlap) (hov : overlap < size) :
    chunk_text [] size overlap = [] ∧
      ∀ c ∈ chunk_text text size overlap,
        c ≠ [] ∧ c.length ≤ size ∧ pyStrip c = c := by
  refine ⟨rfl, ?_⟩
  intro c hc
  unfold chunk_text at hc
  split at hc
  · simp at hc
  · exact chunkTextAux_mem text size overlap _ _ c hc

theorem chunk_text_wellformed_witness :
    0 < 1 ∧ 1 < 3 ∧ "ab".toList ≠ [] ∧ "ab".toList.length ≤ 3 ∧
      pyStrip "ab".toList = "ab".toList :=
  ⟨by decide, by decide,
    (chunk_text_wellformed "ab c".toList 3 1 (by decide) (by decide)).2
      "ab".toList (by decide)⟩

/-- Claim C2 fails on the code: `chunk_text "ab c d e" 3 1` returns
`["ab", "c", "d", "e"]`, and the interior consecutive pair `("c", "d")`
(neither chunk first, last, nor clipped at a text boundary) does not
overlap by `O = 1` characters, because each window is stripped of
whitespace before being returned. -/
theorem chunk_overlap_counterexample :
    chunk_text "ab c d e".toList 3 1 =
        ["ab".toList, "c".toList, "d".toList, "e".toList] ∧
      ¬ overlapsBy 1 ((chunk_text "ab c d e".toList 3 1).getD 1 [])
          ((chunk_text "ab c d e".toList 3 1).getD 2 []) := by decide

/-- Claim C2 (amended): for `0 < O < C`, consecutive raw scan windows of
the `chunk_text` loop — the window at cursor `s` and the one at the next
cursor `s + (C − O)` — overlap by exactly `O` characters whenever the
earlier window is full-length (`s + C ≤ text.length`); the whitespace
trimming applied to each window before it is returned can destroy this
overlap for the returned chunks. -/
theorem rawWindow_overlap (text : List Char) (size overlap start : Nat)
    (h0 : 0 < overlap) (hov : overlap < size)
    (hfull : start + size ≤ text.length) :
    overlapsBy overlap (rawWindow text size start)
      (rawWindow text size (nextStart size overlap start)) := by
  unfold overlapsBy rawWindow nextStart
  have hlen : ((text.drop start).take size).length = size := by
    rw [List.length_take, List.length_drop]
    omega
  rw [hlen, List.drop_take, List.drop_drop, List.take_take]
  have h1 : size - (size - overlap) = overlap := by omega
  have h2 : start + (size - overlap) = start + size - overlap := by omega
  have h3 : min overlap size = overlap := by omega
  rw [h1, h2, h3]

theorem rawWindow_overlap_witness :
    0 < 1 ∧ 1 < 3 ∧ 0 + 3 ≤ "abcde".toList.length ∧
      overlapsBy 1 (rawWindow "abcde".toList 3 0)
        (rawWindow "abcde".toList 3 (nextStart 3 1 0)) :=
  ⟨by decide, by decide, by decide,
    rawWindow_overlap "abcde".toList 3 1 0 (by decide) (by decide) (by decide)⟩

/-! ### Theorems: the Retriever (claim C1) -/

/-- Claim C1: `retrieve` returns exactly the search results with id `-1`
dropped and ids missing from the metadata mapping dropped, each survivor
joined with its metadata record, in the index's result order; in the
concrete scenario — metadata ids `{1, 2}`, search ids `[1, 3, -1]` with
`k = 3` — it yields exactly the one hit for id 1, fewer than `k` hits. -/
theorem retrieve_filters_and_joins :
    (∀ (σ : Type) (results : List (Int × σ)) (metadata : List (Int × MetaRecord)),
        retrieveHits results metadata =
          results.filterMap fun r =>
            if r.1 = -1 then none
            else (metadata.lookup r.1).map (joinHit r.1 r.2)) ∧
      retrieveHits [((1 : Int), (10 : Int)), (3, 20), (-1, 30)]
          [(1, sampleRecord "a"), (2, sampleRecord "b")] =
        [joinHit 1 10 (sampleRecord "a")] ∧
      (retrieveHits [((1 : Int), (10 : Int)), (3, 20), (-1, 30)]
          [(1, sampleRecord "a"), (2, sampleRecord "b")]).length < 3 := by
  refine ⟨?_, by decide, by decide⟩
  intro σ results metadata
  induction results with
  | nil => rfl
  | cons r rest ih =>
    obtain ⟨idx, score⟩ := r
    by_cases h : idx = -1
    · simp [retrieveHits, h, List.filterMap_cons, ih]
    · cases hm : metadata.lookup idx with
      | none => simp [retrieveHits, h, hm, List.filterMap_cons, ih]
      | some m => simp [retrieveHits, h, hm, List.filterMap_cons, ih]

/-! ### Theorems: substring counting -/

theorem noPartialSuffixB_iff (p a : List Char) :
    noPartialSuffixB p a = true ↔
      ∀ k, 0 < k → k < p.length → ¬ (p.take k <:+ a) := by
  simp only [noPartialSuffixB, List.all_eq_true, List.mem_range,
    Bool.or_eq_true, decide_eq_true_eq, Bool.not_eq_true',
    decide_eq_false_iff_not]
  constructor
  · intro h k hk0 hkp
    rcases h k hkp with h0 | hns
    · omega
    · exact hns
  · intro h k hkp
    by_cases hk0 : k = 0
    · exact Or.inl hk0
    · exact Or.inr (h k (Nat.pos_of_ne_zero hk0) hkp)

theorem countOcc_cons (p : List Char) (c : Char) (l : List Char) :
    countOcc p (c :: l) = (if p <+: c :: l then 1 else 0) + countOcc p l := rfl

theorem take_eq_of_long_prefix (p a b : List Char) (hpre : p <+: a ++ b)
    (hlen : a.length < p.length) : p.take a.length = a := by
  rw [List.prefix_iff_eq_take] at hpre
  calc p.take a.length = ((a ++ b).take p.length).take a.length := by rw [← hpre]
    _ = (a ++ b).take (min a.length p.length) := List.take_take _ _ _
    _ = (a ++ b).take a.length := by rw [min_eq_left (le_of_lt hlen)]
    _ = a.take a.length := List.take_append_of_le_length (le_refl _)
    _ = a := by simp

/-- Occurrences split across a concatenation when no proper prefix of the
pattern is a suffix of the left part. -/
theorem countOcc_append_left (p : List Char) :
    ∀ a b, noPartialSuffixB p a = true →
      countOcc p (a ++ b) = countOcc p a + countOcc p b := by
  intro a
  induction a with
  | nil => intro b _; simp [countOcc]
  | cons c a' ih =>
    intro b ha
    have ha' : noPartialSuffixB p a' = true := by
      rw [noPartialSuffixB_iff] at ha ⊢
      intro k hk0 hkp hsuf
      exact ha k hk0 hkp (hsuf.trans (List.suffix_cons c a'))
    have hpref : (p <+: (c :: a') ++ b) ↔ (p <+: c :: a') := by
      constructor
      · intro hpre
        by_cases hlen : p.length ≤ (c :: a').length
        · rw [List.prefix_iff_eq_take] at hpre ⊢
          rwa [List.take_append_of_le_length hlen] at hpre
        · exfalso
          push_neg at hlen
          have htake := take_eq_of_long_prefix p (c :: a') b hpre hlen
          have hcontra := (noPartialSuffixB_iff p (c :: a')).mp ha
            (c :: a').length (by simp) hlen
          exact hcontra (by rw [htake])
      · intro hpre
        exact hpre.trans (List.prefix_append (c :: a') b)
    by_cases hc : p <+: c :: a'
    · have hc2 : p <+: (c :: a') ++ b := hpref.mpr hc
      rw [List.cons_append] at hc2
      rw [List.cons_append, countOcc_cons, countOcc_cons, if_pos hc, if_pos hc2,
        ih b ha']
      omega
    · have hc2 : ¬ p <+: (c :: a') ++ b := fun h => hc (hpref.mp h)
      rw [List.cons_append] at hc2
      rw [List.cons_append, countOcc_cons, countOcc_cons, if_neg hc, if_neg hc2,
        ih b ha']
      omega

/-- Occurrences split across a concatenation when the right part starts
with a character that does not occur in the pattern. -/
theorem countOcc_append_right (p : List Char) :
    ∀ a b c, b.head? = some c → c ∉ p →
      countOcc p (a ++ b) = countOcc p a + countOcc p b := by
  intro a
  induction a with
  | nil => intro b c _ _; simp [countOcc]
  | cons x a' ih =>
    intro b c hb hc
    have hpref : (p <+: (x :: a') ++ b) ↔ (p <+: x :: a') := by
      constructor
      · intro hpre
        by_cases hlen : p.length ≤ (x :: a').length
        · rw [List.prefix_iff_eq_take] at hpre ⊢
          rwa [List.take_append_of_le_length hlen] at hpre
        · exfalso
          push_neg at hlen
          have htake := take_eq_of_long_prefix p (x :: a') b hpre hlen
          have hsplit : p = (x :: a') ++ p.drop (x :: a').length := by
            conv_lhs => rw [← List.take_append_drop (x :: a').length p]
            rw [htake]
          have hdrop : p.drop (x :: a').length <+: b := by
            rw [hsplit] at hpre
            exact (List.prefix_append_right_inj (x :: a')).mp hpre
          cases hd : p.drop (x :: a').length with
          | nil =>
            have := congrArg List.length hd
            simp only [List.length_drop, List.length_nil] at this
            omega
          | cons d ds =>
            rcases hdrop with ⟨t, ht⟩
            rw [hd] at ht
            have hhd : b.head? = some d := by rw [← ht]; rfl
            rw [hb] at hhd
            have hcd : c = d := Option.some.inj hhd
            have hdp : d ∈ p := by
              have hmem : d ∈ p.drop (x :: a').length := by
                rw [hd]; exact List.mem_cons_self d ds
              exact List.drop_subset _ p hmem
            exact hc (hcd ▸ hdp)
      · intro hpre
        exact hpre.trans (List.prefix_append (x :: a') b)
    by_cases hx : p <+: x :: a'
    · have hx2 : p <+: (x :: a') ++ b := hpref.mpr hx
      rw [List.cons_append] at hx2
      rw [List.cons_append, countOcc_cons, countOcc_cons, if_pos hx, if_pos hx2,
        ih b c hb hc]
      omega
    · have hx2 : ¬ p <+: (x :: a') ++ b := fun h => hx (hpref.mp h)
      rw [List.cons_append] at hx2
      rw [List.cons_append, countOcc_cons, countOcc_cons, if_neg hx, if_neg hx2,
        ih b c hb hc]
      omega

/-! ### Theorems: the Prompt Builder (claims C4, C10) -/

/-- Claim C10: `build_prompt` with the empty string as insights omits the
insights block exactly as with `None`: the guard is Python truthiness of
the value, and the empty string is falsy, so the two prompts coincide. -/
theorem build_prompt_empty_insights {σ : Type} (question : String)
    (hits : List (Hit σ)) :
    build_prompt question hits (some "") = build_prompt question hits none := by
  simp [build_prompt, improvementBlock]


theorem ctxEntry_countOcc {σ : Type} (h : Hit σ)
    (h1 : countOcc "Additional Insights".toList (pyFormat h.source).toList = 0)
    (h2 : countOcc "Additional Insights".toList (pyFormat h.product_name).toList = 0)
    (h3 : countOcc "Additional Insights".toList (pyFormat h.text).toList = 0) :
    countOcc "Additional Insights".toList (ctxEntry h) = 0 := by
  have e6 : countOcc "Additional Insights".toList
      ((pyFormat h.text).toList ++ "\n".toList) = 0 := by
    rw [countOcc_append_right "Additional Insights".toList (pyFormat h.text).toList
      "\n".toList '\n' rfl (by decide), h3]
    decide
  have e5 : countOcc "Additional Insights".toList
      ("\nExcerpt: ".toList ++ ((pyFormat h.text).toList ++ "\n".toList)) = 0 := by
    rw [countOcc_append_left "Additional Insights".toList "\nExcerpt: ".toList _
      (by decide), e6]
    decide
  have e4 : countOcc "Additional Insights".toList
      ((pyFormat h.product_name).toList ++
        ("\nExcerpt: ".toList ++ ((pyFormat h.text).toList ++ "\n".toList))) = 0 := by
    rw [countOcc_append_right "Additional Insights".toList
      (pyFormat h.product_name).toList
      ("\nExcerpt: ".toList ++ ((pyFormat h.text).toList ++ "\n".toList))
      '\n' rfl (by decide), h2, e5]
  have e3 : countOcc "Additional Insights".toList
      ("\nProduct: ".toList ++ ((pyFormat h.product_name).toList ++
        ("\nExcerpt: ".toList ++ ((pyFormat h.text).toList ++ "\n".toList)))) = 0 := by
    rw [countOcc_append_left "Additional Insights".toList "\nProduct: ".toList _
      (by decide), e4]
    decide
  have e2 : countOcc "Additional Insights".toList
      ((pyFormat h.source).toList ++ ("\nProduct: ".toList ++
        ((pyFormat h.product_name).toList ++
          ("\nExcerpt: ".toList ++ ((pyFormat h.text).toList ++ "\n".toList))))) = 0 := by
    rw [countOcc_append_right "Additional Insights".toList (pyFormat h.source).toList
      ("\nProduct: ".toList ++ ((pyFormat h.product_name).toList ++
        ("\nExcerpt: ".toList ++ ((pyFormat h.text).toList ++ "\n".toList))))
      '\n' rfl (by decide), h1, e3]
  unfold ctxEntry
  simp only [List.append_assoc]
  rw [countOcc_append_left "Additional Insights".toList "Source: ".toList _
    (by decide), e2]
  decide

theorem contextBlock_countOcc {σ : Type} (hits : List (Hit σ))
    (hh : ∀ h ∈ hits,
      countOcc "Additional Insights".toList (pyFormat h.source).toList = 0 ∧
      countOcc "Additional Insights".toList (pyFormat h.product_name).toList = 0 ∧
      countOcc "Additional Insights".toList (pyFormat h.text).toList = 0) :
    countOcc "Additional Insights".toList (contextBlock hits) = 0 := by
  induction hits with
  | nil => rfl
  | cons h t ih =>
    rcases hh h (List.mem_cons_self h t) with ⟨h1, h2, h3⟩
    cases t with
    | nil =>
      show countOcc "Additional Insights".toList (ctxEntry h) = 0
      exact ctxEntry_countOcc h h1 h2 h3
    | cons h2' t2 =>
      have hrest : countOcc "Additional Insights".toList
          (contextBlock (h2' :: t2)) = 0 :=
        ih fun x hx => hh x (List.mem_cons_of_mem h hx)
      have hstep : contextBlock (h :: h2' :: t2) =
          ctxEntry h ++ "\n\n---\n\n".toList ++ contextBlock (h2' :: t2) := rfl
      rw [hstep, List.append_assoc]
      rw [countOcc_append_right "Additional Insights".toList (ctxEntry h)
        ("\n\n---\n\n".toList ++ contextBlock (h2' :: t2)) '\n' rfl (by decide)]
      rw [countOcc_append_left "Additional Insights".toList "\n\n---\n\n".toList _
        (by decide), hrest, ctxEntry_countOcc h h1 h2 h3]
      decide

/-- Core count of the phrase "Additional Insights" in a built prompt: the
fixed template contributes none, the optional insights block contributes
exactly one, and the question contributes its own occurrences (the hit
fields are assumed clean). -/
theorem build_prompt_countOcc_core {σ : Type} (question : String)
    (hits : List (Hit σ))
    (hh : ∀ h ∈ hits,
      countOcc "Additional Insights".toList (pyFormat h.source).toList = 0 ∧
      countOcc "Additional Insights".toList (pyFormat h.product_name).toList = 0 ∧
      countOcc "Additional Insights".toList (pyFormat h.text).toList = 0) :
    countOcc "Additional Insights".toList (build_prompt question hits none) =
        countOcc "Additional Insights".toList question.toList ∧
      countOcc "Additional Insights".toList
          (build_prompt question hits (some "low ceramides")) =
        1 + countOcc "Additional Insights".toList question.toList := by
  have tTail : countOcc "Additional Insights".toList promptTail = 0 := by decide
  have t2 : countOcc "Additional Insights".toList (question.toList ++ promptTail) =
      countOcc "Additional Insights".toList question.toList := by
    rw [countOcc_append_right "Additional Insights".toList question.toList
      promptTail '\n' rfl (by decide), tTail]
    omega
  have t3 : countOcc "Additional Insights".toList
      ("\n\nUser Question:\n".toList ++ (question.toList ++ promptTail)) =
      countOcc "Additional Insights".toList question.toList := by
    rw [countOcc_append_left "Additional Insights".toList
      "\n\nUser Question:\n".toList _ (by decide), t2]
    have : countOcc "Additional Insights".toList "\n\nUser Question:\n".toList
      = 0 := by decide
    omega
  have hcb := contextBlock_countOcc hits hh
  have hHead : countOcc "Additional Insights".toList promptHeader = 0 := by decide
  constructor
  · unfold build_prompt
    rw [show improvementBlock none = [] from rfl]
    simp only [List.append_assoc, List.nil_append]
    rw [countOcc_append_left "Additional Insights".toList promptHeader _
      (by decide), hHead]
    rw [countOcc_append_right "Additional Insights".toList (contextBlock hits)
      ("\n\n".toList ++ ("\n\nUser Question:\n".toList ++
        (question.toList ++ promptTail))) '\n' rfl (by decide), hcb]
    rw [countOcc_append_left "Additional Insights".toList "\n\n".toList _
      (by decide), t3]
    have : countOcc "Additional Insights".toList "\n\n".toList = 0 := by decide
    omega
  · unfold build_prompt
    rw [show improvementBlock (some "low ceramides") =
      "\nAdditional Insights:\nlow ceramides\n".toList from by decide]
    simp only [List.append_assoc]
    rw [countOcc_append_left "Additional Insights".toList promptHeader _
      (by decide), hHead]
    rw [countOcc_append_right "Additional Insights".toList (contextBlock hits)
      ("\n\n".toList ++ ("\nAdditional Insights:\nlow ceramides\n".toList ++
        ("\n\nUser Question:\n".toList ++ (question.toList ++ promptTail))))
      '\n' rfl (by decide), hcb]
    rw [countOcc_append_left "Additional Insights".toList "\n\n".toList _
      (by decide)]
    rw [countOcc_append_left "Additional Insights".toList
      "\nAdditional Insights:\nlow ceramides\n".toList _ (by decide), t3]
    have hb1 : countOcc "Additional Insights".toList
      "\nAdditional Insights:\nlow ceramides\n".toList = 1 := by decide
    have hb2 : countOcc "Additional Insights".toList "\n\n".toList = 0 := by decide
    omega

/-- Claim C4 fails on the code: the claim quantifies over every question
and hit list, but a question that itself contains the phrase makes the
insights-free prompt contain "Additional Insights", and makes the
insights-bearing prompt contain it more than once. -/
theorem build_prompt_insights_counterexample :
    countOcc "Additional Insights".toList
        (build_prompt "Additional Insights" ([] : List (Hit Int)) none) ≠ 0 ∧
      countOcc "Additional Insights".toList
        (build_prompt "Additional Insights" ([] : List (Hit Int))
          (some "low ceramides")) ≠ 1 := by
  have hcore := build_prompt_countOcc_core "Additional Insights"
    ([] : List (Hit Int)) (by simp)
  have hq : countOcc "Additional Insights".toList
      "Additional Insights".toList = 1 := by decide
  rw [hq] at hcore
  omega

/-- Claim C4 (amended): for every question and hit list whose rendered
fields (question text, and each hit's formatted source, product name and
excerpt) contain no occurrence of the substring "Additional Insights",
`build_prompt` with `insights = None` yields a prompt with no occurrence
of that substring, and with `insights = "low ceramides"` yields exactly
one occurrence; the labeled block is omitted entirely when insights are
absent. -/
theorem build_prompt_insights_occurrences {σ : Type} (question : String)
    (hits : List (Hit σ))
    (hq : countOcc "Additional Insights".toList question.toList = 0)
    (hh : ∀ h ∈ hits,
      countOcc "Additional Insights".toList (pyFormat h.source).toList = 0 ∧
      countOcc "Additional Insights".toList (pyFormat h.product_name).toList = 0 ∧
      countOcc "Additional Insights".toList (pyFormat h.text).toList = 0) :
    countOcc "Additional Insights".toList (build_prompt question hits none) = 0 ∧
      countOcc "Additional Insights".toList
        (build_prompt question hits (some "low ceramides")) = 1 := by
  have hcore := build_prompt_countOcc_core question hits hh
  rw [hq] at hcore
  omega

theorem build_prompt_insights_occurrences_witness :
    countOcc "Additional Insights".toList "dry skin".toList = 0 ∧
      countOcc "Additional Insights".toList
        (build_prompt "dry skin" ([] : List (Hit Int)) none) = 0 ∧
      countOcc "Additional Insights".toList
        (build_prompt "dry skin" ([] : List (Hit Int)) (some "low ceramides")) = 1 :=
  ⟨by decide,
    (build_prompt_insights_occurrences "dry skin" [] (by decide) (by simp)).1,
    (build_prompt_insights_occurrences "dry skin" [] (by decide) (by simp)).2⟩

/-! ### Theorems: the Indexer (claims C5, C9) -/

theorem docsForProduct_map_id (p : Product) (nid : Nat) :
    (docsForProduct p nid).map Doc.id =
      List.range' nid (chunk_text (docTextOf p) CHUNK_SIZE CHUNK_OVERLAP).length := by
  unfold docsForProduct
  rw [List.map_map, List.range'_eq_map_range,
    ← List.enum_map_fst (chunk_text (docTextOf p) CHUNK_SIZE CHUNK_OVERLAP),
    List.map_map]
  rfl

theorem docsForProduct_length (p : Product) (nid : Nat) :
    (docsForProduct p nid).length =
      (chunk_text (docTextOf p) CHUNK_SIZE CHUNK_OVERLAP).length := by
  unfold docsForProduct
  rw [List.length_map, List.enum_length]

theorem buildDocs_map_id (ps : List Product) :
    ∀ nid, (buildDocs ps nid).map Doc.id =
      List.range' nid (buildDocs ps nid).length := by
  induction ps with
  | nil => intro nid; rfl
  | cons p ps ih =>
    intro nid
    rw [show buildDocs (p :: ps) nid = docsForProduct p nid ++
      buildDocs ps (nid + (chunk_text (docTextOf p) CHUNK_SIZE CHUNK_OVERLAP).length)
      from rfl]
    rw [List.map_append, docsForProduct_map_id, ih, List.length_append,
      docsForProduct_length]
    rw [show nid + (chunk_text (docTextOf p) CHUNK_SIZE CHUNK_OVERLAP).length =
      nid + 1 * (chunk_text (docTextOf p) CHUNK_SIZE CHUNK_OVERLAP).length by omega]
    rw [List.range'_append]
    congr 1
    omega

/-- Claim C9: in one indexing run the assigned chunk ids are exactly the
consecutive integers `1..N` (monotonic, unique, no gaps, no reuse), the
metadata sidecar is keyed by exactly those ids with one record per id,
and the ids added to the vector index are exactly the sidecar's keys, so
every indexed id has a matching metadata record. -/
theorem indexer_ids_consecutive (ps : List Product) :
    (allDocs ps).map Doc.id = List.range' 1 (allDocs ps).length ∧
      ((allDocs ps).map Doc.id).Nodup ∧
      metaKeys (allDocs ps) = (allDocs ps).map Doc.id ∧
      indexIds (allDocs ps) = metaKeys (allDocs ps) := by
  refine ⟨buildDocs_map_id ps 1, ?_, rfl, rfl⟩
  show ((buildDocs ps 1).map Doc.id).Nodup
  rw [buildDocs_map_id ps 1]
  exact List.nodup_range' ..

theorem writeFrom_length {α : Type} :
    ∀ (vs : List α) (l : List (Option α)) (i : Nat),
      (writeFrom l i vs).length = l.length := by
  intro vs
  induction vs with
  | nil => intro l i; rfl
  | cons v vs ih =>
    intro l i
    show (writeFrom (l.set i (some v)) (i + 1) vs).length = l.length
    rw [ih, List.length_set]

theorem writeFrom_get?_lt {α : Type} :
    ∀ (vs : List α) (l : List (Option α)) (i k : Nat), k < i →
      (writeFrom l i vs).get? k = l.get? k := by
  intro vs
  induction vs with
  | nil => intro l i k _; rfl
  | cons v vs ih =>
    intro l i k hk
    show (writeFrom (l.set i (some v)) (i + 1) vs).get? k = l.get? k
    rw [ih _ _ _ (by omega), List.get?_set_ne _ _ (by omega)]

theorem writeFrom_getD_isSome {α : Type} :
    ∀ (vs : List α) (l : List (Option α)) (i k : Nat),
      i ≤ k → k < i + vs.length → k < l.length →
      ((writeFrom l i vs).getD k none).isSome := by
  intro vs
  induction vs with
  | nil =>
    intro l i k h1 h2 _
    simp only [List.length_nil, Nat.add_zero] at h2
    omega
  | cons v vs ih =>
    intro l i k h1 h2 h3
    by_cases hk : k = i
    · subst hk
      have hw := writeFrom_get?_lt vs (l.set k (some v)) (k + 1) k (by omega)
      have hset : (l.set k (some v)).get? k = some (some v) :=
        List.get?_set_eq_of_lt _ h3
      show ((writeFrom (l.set k (some v)) (k + 1) vs).get? k).getD none |>.isSome
      rw [hw, hset]
      rfl
    · show ((writeFrom (l.set i (some v)) (i + 1) vs).getD k none).isSome
      apply ih
      · omega
      · have : (v :: vs).length = vs.length + 1 := rfl
        omega
      · rw [List.length_set]
        exact h3

theorem embedLoopStep_inv {α : Type} (f : String → α) (docs : List String)
    (st : EmbState α) (ok : Bool)
    (h1 : st.emb.length = docs.length)
    (h2 : ∀ k, k < st.i → k < docs.length → (st.emb.getD k none).isSome) :
    (embedLoopStep f docs st ok).emb.length = docs.length ∧
      ∀ k, k < (embedLoopStep f docs st ok).i → k < docs.length →
        ((embedLoopStep f docs st ok).emb.getD k none).isSome := by
  unfold embedLoopStep
  by_cases hlt : st.i < docs.length
  · rw [if_pos hlt]
    cases ok with
    | false => exact ⟨h1, h2⟩
    | true =>
      refine ⟨?_, ?_⟩
      · show (writeFrom st.emb st.i (((docs.drop st.i).take BATCH_SIZE).map f)).length
          = docs.length
        rw [writeFrom_length]
        exact h1
      · intro k hk hkd
        have hk2 : k < st.i + BATCH_SIZE := hk
        show ((writeFrom st.emb st.i
          (((docs.drop st.i).take BATCH_SIZE).map f)).getD k none).isSome
        by_cases hki : k < st.i
        · have hw := writeFrom_get?_lt (((docs.drop st.i).take BATCH_SIZE).map f)
            st.emb st.i k hki
          show ((writeFrom st.emb st.i
            (((docs.drop st.i).take BATCH_SIZE).map f)).get? k).getD none |>.isSome
          rw [hw]
          exact h2 k hki hkd
        · apply writeFrom_getD_isSome
          · omega
          · rw [List.length_map, List.length_take, List.length_drop]
            omega
          · rw [h1]
            exact hkd
  · rw [if_neg hlt]
    exact ⟨h1, h2⟩

theorem runEmbedLoop_inv {α : Type} (f : String → α) (docs : List String) :
    ∀ (outcomes : List Bool) (st : EmbState α),
      st.emb.length = docs.length →
      (∀ k, k < st.i → k < docs.length → (st.emb.getD k none).isSome) →
      (outcomes.foldl (embedLoopStep f docs) st).emb.length = docs.length ∧
        ∀ k, k < (outcomes.foldl (embedLoopStep f docs) st).i → k < docs.length →
          ((outcomes.foldl (embedLoopStep f docs) st).emb.getD k none).isSome := by
  intro outcomes
  induction outcomes with
  | nil => intro st hh1 hh2; exact ⟨hh1, hh2⟩
  | cons ok rest ih =>
    intro st hh1 hh2
    have hstep := embedLoopStep_inv f docs st ok hh1 hh2
    exact ih (embedLoopStep f docs st ok) hstep.1 hstep.2

/-- Claim C5: a failed batch embedding call leaves the loop state (offset
and slot array) unchanged, so the same batch is retried from the same
offset (the 5-second back-off has no observable effect on state); the
offset advances by `BATCH_SIZE` only on a successful batch; and whenever
the loop terminates (final offset at or past `len(docs)`), every chunk
position holds an embedding. -/
theorem embed_loop_retry_and_fill :
    (∀ (α : Type) (f : String → α) (docs : List String) (st : EmbState α),
        embedLoopStep f docs st false = st) ∧
      (∀ (α : Type) (f : String → α) (docs : List String) (st : EmbState α),
        st.i < docs.length →
        (embedLoopStep f docs st true).i = st.i + BATCH_SIZE) ∧
      ∀ (α : Type) (f : String → α) (docs : List String) (outcomes : List Bool),
        docs.length ≤ (runEmbedLoop f docs outcomes).i →
        ∀ k, k < docs.length →
          ((runEmbedLoop f docs outcomes).emb.getD k none).isSome := by
  refine ⟨?_, ?_, ?_⟩
  · intro α f docs st
    unfold embedLoopStep
    split
    · rfl
    · rfl
  · intro α f docs st hlt
    unfold embedLoopStep
    rw [if_pos hlt]
    rfl
  · intro α f docs outcomes hterm k hk
    have hinv := runEmbedLoop_inv f docs outcomes
      ⟨0, List.replicate docs.length none⟩ (by simp)
      (fun k hk0 _ => absurd hk0 (Nat.not_lt_zero k))
    have hi : docs.length ≤ (outcomes.foldl (embedLoopStep f docs)
        ⟨0, List.replicate docs.length none⟩).i := hterm
    exact hinv.2 k (by omega) hk

theorem embed_loop_retry_and_fill_witness :
    embedLoopStep (fun s : String => s) ["a", "b"]
        (⟨0, [none, none]⟩ : EmbState String) false =
        (⟨0, [none, none]⟩ : EmbState String) ∧
      (0 : Nat) < 2 ∧
      (embedLoopStep (fun s : String => s) ["a", "b"]
        (⟨0, [none, none]⟩ : EmbState String) true).i = 0 + BATCH_SIZE ∧
      2 ≤ (runEmbedLoop (fun s : String => s) ["a", "b"] [false, true]).i ∧
      ((runEmbedLoop (fun s : String => s) ["a", "b"]
        [false, true]).emb.getD 0 none).isSome ∧
      ((runEmbedLoop (fun s : String => s) ["a", "b"]
        [false, true]).emb.getD 1 none).isSome :=
  ⟨embed_loop_retry_and_fill.1 String (fun s => s) ["a", "b"] ⟨0, [none, none]⟩,
    by decide,
    embed_loop_retry_and_fill.2.1 String (fun s => s) ["a", "b"]
      ⟨0, [none, none]⟩ (by decide),
    by decide,
    embed_loop_retry_and_fill.2.2 String (fun s => s) ["a", "b"] [false, true]
      (by decide) 0 (by decide),
    embed_loop_retry_and_fill.2.2 String (fun s => s) ["a", "b"] [false, true]
      (by decide) 1 (by decide)⟩

/-! ### Theorems: the Dashboard workers (claim C8) -/

/-- Claim C8: for every combination of call outcomes, each background
worker run emits exactly one completion payload, and that payload
carries either a success result or an explicit `error` field — not both
and not neither; the run functions are total, so no exception escapes a
worker (the caller renders the error field as text). -/
theorem worker_single_payload :
    (∀ o : AnalysisOutcome, (analysisWorkerRun o).length = 1 ∧
        (analysisWorkerRun o).all analysisPayloadOk = true) ∧
      ∀ o : ForecastOutcome, (forecastWorkerRun o).length = 1 ∧
        (forecastWorkerRun o).all forecastPayloadOk = true := by
  constructor
  · intro o
    obtain ⟨aAvail, aRes, rAvail, retRes, chatRes⟩ := o
    cases aAvail <;> cases aRes <;> cases rAvail <;> cases retRes <;>
      cases chatRes <;> simp [analysisWorkerRun, analysisPayloadOk]
  · intro o
    obtain ⟨fAvail, pRes⟩ := o
    cases fAvail <;> cases pRes <;> simp [forecastWorkerRun, forecastPayloadOk]

/-! ### Theorems: the Answer Parser (claim C3) -/

theorem expectChar_cons (c x : Char) (r : List Char) :
    expectChar c (x :: r) = if x = c then some r else none := rfl

theorem headingCore_cons_ne (w : List Char) (c : Char) (r : List Char)
    (hc : c ≠ '#') : headingCore w (c :: r) = none := by
  simp [headingCore, expectChar, hc]

theorem primaryAt_nil : primaryAt [] = none := rfl

theorem marketingAt_nil : marketingAt [] = none := rfl

theorem primaryAt_cons_ne (c : Char) (r : List Char) (hc : c ≠ '#') :
    primaryAt (c :: r) = none := by
  simp [primaryAt, headingWs, headingCore_cons_ne _ _ _ hc]

theorem marketingAt_cons_ne (c : Char) (r : List Char) (hc : c ≠ '#') :
    marketingAt (c :: r) = none := by
  simp [marketingAt, expectChar, hc]

theorem matchSplitPat_cons_ne (c : Char) (r : List Char) (hc : c ≠ '#') :
    matchSplitPat (c :: r) = none := by
  simp [matchSplitPat, headingCore_cons_ne _ _ _ hc]

theorem ciPrefixMatch_append (w : List Char) :
    ∀ t r b : List Char, ciPrefixMatch w t = some r →
      ciPrefixMatch w (t ++ b) = some (r ++ b) := by
  induction w with
  | nil =>
    intro t r b h
    simp [ciPrefixMatch] at h ⊢
    rw [h]
  | cons p ps ih =>
    intro t r b h
    cases t with
    | nil => simp [ciPrefixMatch] at h
    | cons c cs =>
      by_cases hcp : c.toLower = p
      · simp only [ciPrefixMatch, if_pos hcp] at h
        simp only [List.cons_append, ciPrefixMatch, if_pos hcp]
        exact ih cs r b h
      · simp [ciPrefixMatch, hcp] at h

theorem ciPrefixMatch_append_none (w : List Char) :
    ∀ t b : List Char, ciPrefixMatch w t = none → w.length ≤ t.length →
      ciPrefixMatch w (t ++ b) = none := by
  induction w with
  | nil => intro t b h _; simp [ciPrefixMatch] at h
  | cons p ps ih =>
    intro t b h hl
    cases t with
    | nil => simp at hl
    | cons c cs =>
      by_cases hcp : c.toLower = p
      · simp only [ciPrefixMatch, if_pos hcp] at h
        simp only [List.cons_append, ciPrefixMatch, if_pos hcp]
        exact ih cs b h (by simpa using hl)
      · simp only [List.cons_append, ciPrefixMatch, if_neg hcp]

theorem primaryAt_M0 (b : List Char) : primaryAt (pisHeading ++ b) = none := rfl

theorem primaryAt_M1 (b : List Char) :
    primaryAt ("## Product Improvement Suggestions".toList ++ b) = none := rfl

theorem primaryAt_M2 (b : List Char) :
    primaryAt ("# Product Improvement Suggestions".toList ++ b) = none := rfl

theorem marketingAt_M0 (b : List Char) : marketingAt (pisHeading ++ b) = none := rfl

theorem marketingAt_M1 (b : List Char) :
    marketingAt ("## Product Improvement Suggestions".toList ++ b) = none := rfl

theorem marketingAt_M2 (b : List Char) :
    marketingAt ("# Product Improvement Suggestions".toList ++ b) = none := rfl

theorem matchSplitPat_M (b : List Char) :
    matchSplitPat (pisHeading ++ b) = some b := rfl

theorem searchFrom_none {β : Type} (f : List Char → Option β) :
    ∀ s, (∀ t, t <:+ s → f t = none) → searchFrom f s = none := by
  intro s
  induction s with
  | nil => intro h; exact h [] (List.suffix_refl [])
  | cons c rest ih =>
    intro h
    show (match f (c :: rest) with
      | some x => some x
      | none => searchFrom f rest) = none
    rw [h (c :: rest) (List.suffix_refl _)]
    exact ih fun t ht => h t (ht.trans (List.suffix_cons c rest))

theorem suffix_append_cases (t a x : List Char) (h : t <:+ a ++ x) :
    t <:+ x ∨ ∃ a', a' <:+ a ∧ a' ≠ [] ∧ t = a' ++ x := by
  have ht := List.suffix_iff_eq_drop.mp h
  by_cases hlen : t.length ≤ x.length
  · left
    rw [List.suffix_iff_eq_drop]
    calc t = (a ++ x).drop ((a ++ x).length - t.length) := ht
      _ = (a ++ x).drop (a.length + (x.length - t.length)) := by
          rw [List.length_append]
          congr 1
          omega
      _ = x.drop (x.length - t.length) := List.drop_append _
  · right
    push_neg at hlen
    have hle := h.length_le
    rw [List.length_append] at hle
    have hK : (a ++ x).length - t.length ≤ a.length := by
      rw [List.length_append]
      omega
    refine ⟨a.drop ((a ++ x).length - t.length), List.drop_suffix _ _, ?_, ?_⟩
    · intro hnil
      have hlen2 := congrArg List.length hnil
      simp only [List.length_drop, List.length_nil, List.length_append] at hlen2
      omega
    · nth_rewrite 1 [ht]
      exact List.drop_append_of_le_length hK

/-- Any matcher that fails on the empty text, at any position starting
with a character other than `#`, and at the three positions inside the
leading `###` of the `Product Improvement Suggestions` heading, fails at
every position of `a ++ heading ++ b` when `a` and `b` are `#`-free. -/
theorem searchFrom_none_scenario {β : Type} (f : List Char → Option β)
    (a b : List Char) (ha : ∀ c ∈ a, c ≠ '#') (hb : ∀ c ∈ b, c ≠ '#')
    (hnil : f [] = none)
    (hcons : ∀ c r, c ≠ '#' → f (c :: r) = none)
    (h0 : f (pisHeading ++ b) = none)
    (h1 : f ("## Product Improvement Suggestions".toList ++ b) = none)
    (h2 : f ("# Product Improvement Suggestions".toList ++ b) = none) :
    searchFrom f (a ++ (pisHeading ++ b)) = none := by
  apply searchFrom_none
  intro t ht
  rcases suffix_append_cases t a (pisHeading ++ b) ht with hx | ⟨a', hsa, hna, hteq⟩
  · rcases suffix_append_cases t pisHeading b hx with hxb | ⟨m', hsM, hnM, hteq⟩
    · cases t with
      | nil => exact hnil
      | cons c r =>
        exact hcons c r (hb c (hxb.subset (List.mem_cons_self c r)))
    · subst hteq
      rcases Nat.lt_or_ge m'.length 33 with hlt | hge
      · cases m' with
        | nil => exact absurd rfl hnM
        | cons c r =>
          have hnotin : ∀ x ∈ pisHeading.drop 3, x ≠ '#' := by decide
          have hmem : c ∈ pisHeading.drop 3 := by
            have heq := List.suffix_iff_eq_drop.mp hsM
            have hle := hsM.length_le
            have hlen3 : 3 ≤ pisHeading.length - (c :: r).length := by
              have : pisHeading.length = 35 := rfl
              omega
            have hdd : (c :: r) <:+ pisHeading.drop 3 := by
              rw [List.suffix_iff_eq_drop]
              calc (c :: r)
                  = pisHeading.drop (pisHeading.length - (c :: r).length) := heq
                _ = (pisHeading.drop 3).drop
                    (pisHeading.length - (c :: r).length - 3) := by
                    rw [List.drop_drop]
                    congr 1
                    omega
                _ = (pisHeading.drop 3).drop
                    ((pisHeading.drop 3).length - (c :: r).length) := by
                    congr 1
                    rw [List.length_drop]
                    omega
            exact hdd.subset (List.mem_cons_self c r)
          rw [List.cons_append]
          exact hcons c _ (hnotin c hmem)
      · have heq := List.suffix_iff_eq_drop.mp hsM
        have hle := hsM.length_le
        have hlen35 : pisHeading.length = 35 := rfl
        have hcases : m'.length = 33 ∨ m'.length = 34 ∨ m'.length = 35 := by
          omega
        rcases hcases with hl | hl | hl
        · have : m' = "# Product Improvement Suggestions".toList := by
            rw [heq, hlen35, hl]
            decide
          rw [this]
          exact h2
        · have : m' = "## Product Improvement Suggestions".toList := by
            rw [heq, hlen35, hl]
            decide
          rw [this]
          exact h1
        · have : m' = pisHeading := by
            rw [heq, hlen35, hl]
            decide
          rw [this]
          exact h0
  · subst hteq
    cases a' with
    | nil => exact absurd rfl hna
    | cons c r =>
      rw [List.cons_append]
      exact hcons c _ (ha c (hsa.subset (List.mem_cons_self c r)))

theorem splitGo_succ_cons (f : Nat) (c : Char) (rest acc : List Char) :
    splitGo (f + 1) (c :: rest) acc =
      match matchSplitPat (c :: rest) with
      | some rem => acc.reverse :: splitGo f rem []
      | none => splitGo f rest (c :: acc) := rfl

theorem splitGo_no_match (b : List Char) (hb : ∀ c ∈ b, c ≠ '#') :
    ∀ fuel acc, b.length < fuel → splitGo fuel b acc = [acc.reverse ++ b] := by
  induction b with
  | nil =>
    intro fuel acc hf
    cases fuel with
    | zero => omega
    | succ f => simp [splitGo]
  | cons c rest ih =>
    intro fuel acc hf
    cases fuel with
    | zero => omega
    | succ f =>
      rw [splitGo_succ_cons,
        matchSplitPat_cons_ne c rest (hb c (List.mem_cons_self c rest))]
      show splitGo f rest (c :: acc) = [acc.reverse ++ (c :: rest)]
      have hf2 : rest.length < f := by
        simp only [List.length_cons] at hf
        omega
      rw [ih (fun x hx => hb x (List.mem_cons_of_mem c hx)) f (c :: acc) hf2]
      simp

theorem splitGo_scenario (b : List Char) (hb : ∀ c ∈ b, c ≠ '#') :
    ∀ a, (∀ c ∈ a, c ≠ '#') →
      ∀ fuel acc, (a ++ (pisHeading ++ b)).length < fuel →
        splitGo fuel (a ++ (pisHeading ++ b)) acc = [acc.reverse ++ a, b] := by
  intro a
  induction a with
  | nil =>
    intro _ fuel acc hf
    cases fuel with
    | zero => omega
    | succ f =>
      simp only [List.nil_append] at hf ⊢
      rw [show pisHeading ++ b =
        '#' :: ("## Product Improvement Suggestions".toList ++ b) from rfl]
      rw [splitGo_succ_cons]
      rw [show matchSplitPat
        ('#' :: ("## Product Improvement Suggestions".toList ++ b)) = some b
        from rfl]
      show acc.reverse :: splitGo f b [] = [acc.reverse ++ [], b]
      have hbf : b.length < f := by
        rw [List.length_append] at hf
        have h35 : pisHeading.length = 35 := rfl
        omega
      rw [splitGo_no_match b hb f [] hbf]
      simp
  | cons c r ih =>
    intro ha fuel acc hf
    cases fuel with
    | zero => omega
    | succ f =>
      rw [show (c :: r) ++ (pisHeading ++ b) = c :: (r ++ (pisHeading ++ b))
        from rfl]
      rw [splitGo_succ_cons,
        matchSplitPat_cons_ne c _ (ha c (List.mem_cons_self c r))]
      show splitGo f (r ++ (pisHeading ++ b)) (c :: acc) =
        [acc.reverse ++ (c :: r), b]
      have hf2 : (r ++ (pisHeading ++ b)).length < f := by
        simp only [List.cons_append, List.length_cons] at hf
        omega
      rw [ih (fun x hx => ha x (List.mem_cons_of_mem c hx)) f (c :: acc) hf2]
      simp

theorem splitPat_scenario (a b : List Char)
    (ha : ∀ c ∈ a, c ≠ '#') (hb : ∀ c ∈ b, c ≠ '#') :
    splitPat (a ++ (pisHeading ++ b)) = [a, b] := by
  unfold splitPat
  rw [splitGo_scenario b hb a ha _ [] (Nat.lt_succ_self _)]
  simp

theorem primarySearch_scenario (a b : List Char)
    (ha : ∀ c ∈ a, c ≠ '#') (hb : ∀ c ∈ b, c ≠ '#') :
    primarySearch (a ++ (pisHeading ++ b)) = none :=
  searchFrom_none_scenario primaryAt a b ha hb rfl primaryAt_cons_ne
    (primaryAt_M0 b) (primaryAt_M1 b) (primaryAt_M2 b)

theorem marketingSearch_scenario (a b : List Char)
    (ha : ∀ c ∈ a, c ≠ '#') (hb : ∀ c ∈ b, c ≠ '#') :
    marketingSearch (a ++ (pisHeading ++ b)) = none :=
  searchFrom_none_scenario marketingAt a b ha hb rfl marketingAt_cons_ne
    (marketingAt_M0 b) (marketingAt_M1 b) (marketingAt_M2 b)

theorem parseRagSections_scenario (a b : List Char)
    (ha : ∀ c ∈ a, c ≠ '#') (hb : ∀ c ∈ b, c ≠ '#') :
    parseRagSections (a ++ (pisHeading ++ b)) =
      { answer := pyStrip a, suggestions := pyStrip b,
        sources := [], marketing := [] } := by
  unfold parseRagSections
  rw [primarySearch_scenario a b ha hb, marketingSearch_scenario a b ha hb,
    splitPat_scenario a b ha hb]
  rfl

/-- Claim C3 fails on the code: the raw text consisting of exactly the
`### Product Improvement Suggestions` heading contains that heading and
no `Sources` heading (the Sources pattern matches at no position), yet
the fallback split yields an empty `answer` and an empty `suggestions`,
contradicting the claimed non-emptiness. -/
theorem parse_sections_counterexample :
    countOcc pisHeading "### Product Improvement Suggestions".toList ≠ 0 ∧
      ((List.range ("### Product Improvement Suggestions".toList.length + 1)).all
        fun i => (headingCore sourcesW
          ("### Product Improvement Suggestions".toList.drop i)).isNone) = true ∧
      (parseRagSections "### Product Improvement Suggestions".toList).answer
        = [] ∧
      (parseRagSections "### Product Improvement Suggestions".toList).suggestions
        = [] := by
  decide

/-- Claim C3 (amended): the parse block always produces a dictionary with
all four keys (answer, suggestions, sources, marketing) present; and for
raw text of the form `a ++ "### Product Improvement Suggestions" ++ b`
where `a` and `b` contain no `#` and have non-empty stripped content,
the primary regex fails, the fallback split applies, and the result has
`answer = strip a` and `suggestions = strip b` (both non-empty) with
`sources` and `marketing` empty. -/
theorem parse_sections_fallback :
    (∀ t : List Char,
      ((ragSectionsDict t).lookup "answer").isSome ∧
        ((ragSectionsDict t).lookup "suggestions").isSome ∧
        ((ragSectionsDict t).lookup "sources").isSome ∧
        ((ragSectionsDict t).lookup "marketing").isSome) ∧
      ∀ a b : List Char, (∀ c ∈ a, c ≠ '#') → (∀ c ∈ b, c ≠ '#') →
        pyStrip a ≠ [] → pyStrip b ≠ [] →
        parseRagSections (a ++ (pisHeading ++ b)) =
          { answer := pyStrip a, suggestions := pyStrip b,
            sources := [], marketing := [] } ∧
        (parseRagSections (a ++ (pisHeading ++ b))).answer ≠ [] ∧
        (parseRagSections (a ++ (pisHeading ++ b))).suggestions ≠ [] := by
  constructor
  · intro t
    exact ⟨rfl, rfl, rfl, rfl⟩
  · intro a b ha hb hsa hsb
    have hp := parseRagSections_scenario a b ha hb
    refine ⟨hp, ?_, ?_⟩
    · rw [hp]
      exact hsa
    · rw [hp]
      exact hsb

theorem parse_sections_fallback_witness :
    ((ragSectionsDict "x".toList).lookup "answer").isSome ∧
      (∀ c ∈ "intro ".toList, c ≠ '#') ∧
      (∀ c ∈ " done".toList, c ≠ '#') ∧
      pyStrip "intro ".toList ≠ [] ∧ pyStrip " done".toList ≠ [] ∧
      parseRagSections ("intro ".toList ++ (pisHeading ++ " done".toList)) =
        { answer := pyStrip "intro ".toList,
          suggestions := pyStrip " done".toList,
          sources := [], marketing := [] } :=
  ⟨(parse_sections_fallback.1 "x".toList).1, by decide, by decide, by decide,
    by decide,
    (parse_sections_fallback.2 "intro ".toList " done".toList (by decide)
      (by decide) (by decide) (by decide)).1⟩
